import Mathlib

/-!
Shallow embedding of the content loader (`src/lib/posts.ts`, recovered as
`src/unnamed/part_008`) and the client-side view-state router
(`src/app/HomeClient.tsx`) of the scrapychain portfolio site, together with
proofs of the behavioural properties stated in its design document.

Modelling conventions:
* filesystem access is abstracted by function parameters returning
  `Except Unit _` (an `.error` value stands for a thrown exception);
* JavaScript strings are Lean `String`s; `undefined` becomes `none`;
* TypeScript type annotations are compile-time only, so runtime-unchecked
  fields (such as `Post.category`) are modelled as plain `String`s.
-/

namespace Scrapy

/-- A normalized post record, mirroring the `Post` interface of the loader.
`category` is a plain `String`: the TypeScript annotation
`'rust' | 'blockchain' | 'personal'` is erased at runtime and the loader
casts the front-matter value without checking it. -/
structure Post where
  slug : String
  title : String
  date : String
  readTime : String
  category : String
  tags : List String
  excerpt : String
  content : String
  html : String
deriving DecidableEq

/-- A front-matter `date` value as produced by the YAML parser: either a
date object (carrying its ISO rendering, what `toISOString()` would return)
or a plain string. -/
inductive FMDate where
  | dateObj (isoString : String)
  | str (s : String)
deriving DecidableEq

/-- The front-matter fields the loader reads from `matter(fileContents).data`;
`none` models an absent (`undefined`) key. -/
structure FrontMatter where
  slug : Option String
  title : Option String
  date : Option FMDate
  readTime : Option String
  category : Option String
  tags : Option (List String)
  excerpt : Option String
deriving DecidableEq

/-- JavaScript `v || dflt` for string-valued `v`: both `undefined` and the
empty string are falsy. -/
def jsOr (v : Option String) (dflt : String) : String :=
  match v with
  | none => dflt
  | some s => if s = "" then dflt else s

/-- JavaScript `s.endsWith(pat)`. -/
def jsEndsWith (s pat : String) : Bool :=
  pat.data.isSuffixOf s.data

/-- Removal of the last `n` characters of a string. -/
def jsDropRight (s : String) (n : Nat) : String :=
  String.mk (s.data.take (s.data.length - n))

/-- JavaScript `fileName.replace(/\.md$/, '')`. -/
def stripMdSuffix (fileName : String) : String :=
  if jsEndsWith fileName ".md" then jsDropRight fileName 3 else fileName

/-- Single-separator split on a list of characters, the semantics of
JavaScript `String.prototype.split` with a one-character separator.
Never returns `[]`; splitting the empty list yields `[[]]`. -/
def jsSplitList (c : Char) : List Char → List (List Char)
  | [] => [[]]
  | x :: xs =>
    if x = c then [] :: jsSplitList c xs
    else
      match jsSplitList c xs with
      | [] => [[x]]
      | h :: t => (x :: h) :: t

/-- JavaScript `s.split(c)` for a one-character separator `c`. -/
def jsSplit (s : String) (c : Char) : List String :=
  (jsSplitList c s.data).map String.mk

/-- Construction of one `Post` record from the parsed pieces of one file,
the body of the `.map` callback in `getAllPosts`.  `markedF` abstracts the
configured `marked` markdown renderer. -/
def mkPost (data : FrontMatter) (content fileName : String)
    (markedF : String → String) : Post :=
  { slug := jsOr data.slug (stripMdSuffix fileName)
  , title := jsOr data.title ""
  , date :=
      match data.date with
      | some (FMDate.dateObj isoString) => (jsSplit isoString 'T').headD ""
      | some (FMDate.str s) => jsOr (some s) ""
      | none => ""
  , readTime := jsOr data.readTime "5 min"
  , category := jsOr data.category "personal"
  , tags := data.tags.getD []
  , excerpt := jsOr data.excerpt ""
  , content := content
  , html := markedF content }

/-- Lexicographic strict comparison of character sequences by code point,
the semantics of the JavaScript `<` operator on strings. -/
def lexLt : List Char → List Char → Bool
  | _, [] => false
  | [], _ :: _ => true
  | a :: as, b :: bs =>
    if a.toNat < b.toNat then true
    else if b.toNat < a.toNat then false
    else lexLt as bs

/-- JavaScript `a < b` on strings. -/
def jsStrLt (a b : String) : Bool := lexLt a.data b.data

/-- The order in which the comparator `(a, b) => (a.date < b.date ? 1 : -1)`
allows `a` to precede `b`: exactly when the comparator is non-positive,
i.e. when `a.date >= b.date` under string comparison. -/
def dateGe (a b : Post) : Prop := jsStrLt a.date b.date = false

instance : DecidableRel dateGe :=
  fun a b => inferInstanceAs (Decidable (jsStrLt a.date b.date = false))

theorem lexLt_asymm :
    ∀ as bs : List Char, lexLt as bs = true → lexLt bs as = false := by
  intro as
  induction as with
  | nil => intro bs _; cases bs <;> rfl
  | cons a as ih =>
    intro bs h
    cases bs with
    | nil => simp [lexLt] at h
    | cons b bs =>
      simp only [lexLt] at h ⊢
      rcases Nat.lt_trichotomy a.toNat b.toNat with h1 | h1 | h1
      · rw [if_neg (by omega), if_pos h1]
      · rw [if_neg (by omega), if_neg (by omega)] at h ⊢
        exact ih bs h
      · rw [if_neg (by omega), if_pos h1] at h
        exact absurd h (by simp)

theorem lexLt_false_trans :
    ∀ as bs cs : List Char,
      lexLt as bs = false → lexLt bs cs = false → lexLt as cs = false := by
  intro as
  induction as with
  | nil =>
    intro bs cs h1 h2
    cases bs with
    | nil => exact h2
    | cons b bs => simp [lexLt] at h1
  | cons a as ih =>
    intro bs cs h1 h2
    cases cs with
    | nil => rfl
    | cons c cs =>
      cases bs with
      | nil => simp [lexLt] at h2
      | cons b bs =>
        simp only [lexLt] at h1 h2 ⊢
        rcases Nat.lt_trichotomy a.toNat b.toNat with hab | hab | hab
        · rw [if_pos hab] at h1
          exact absurd h1 (by simp)
        · rw [if_neg (by omega), if_neg (by omega)] at h1
          rcases Nat.lt_trichotomy b.toNat c.toNat with hbc | hbc | hbc
          · rw [if_pos hbc] at h2
            exact absurd h2 (by simp)
          · rw [if_neg (by omega), if_neg (by omega)] at h2
            rw [if_neg (by omega), if_neg (by omega)]
            exact ih bs cs h1 h2
          · rw [if_neg (by omega), if_pos (by omega)]
        · rcases Nat.lt_trichotomy b.toNat c.toNat with hbc | hbc | hbc
          · rw [if_pos hbc] at h2
            exact absurd h2 (by simp)
          · rw [if_neg (by omega), if_pos (by omega)]
          · rw [if_neg (by omega), if_pos (by omega)]

instance : IsTotal Post dateGe :=
  ⟨fun a b => by
    unfold dateGe
    cases h : jsStrLt a.date b.date with
    | false => exact Or.inl rfl
    | true => exact Or.inr (lexLt_asymm a.date.data b.date.data h)⟩

instance : IsTrans Post dateGe :=
  ⟨fun _ _ _ hab hbc => lexLt_false_trans _ _ _ hab hbc⟩

/-- Mapping a fallible function over a list, stopping at the first failure:
the semantics of `Array.prototype.map` whose callback may throw inside a
`try` block. -/
def mapE (f : String → Except Unit Post) : List String → Except Unit (List Post)
  | [] => .ok []
  | x :: xs =>
    match f x with
    | .error e => .error e
    | .ok y =>
      match mapE f xs with
      | .error e => .error e
      | .ok ys => .ok (y :: ys)

/-- Reading and parsing one file inside the `.map` callback of `getAllPosts`:
`fs.readFileSync` then `matter`, either of which may throw. -/
def postOfFile (readFile : String → Except Unit String)
    (matterF : String → Except Unit (FrontMatter × String))
    (markedF : String → String) (fileName : String) : Except Unit Post :=
  match readFile fileName with
  | .error e => .error e
  | .ok fileContents =>
    match matterF fileContents with
    | .error e => .error e
    | .ok (data, content) => .ok (mkPost data content fileName markedF)

/-- The body of the `try` block of `getAllPosts`: list the directory, keep
the `.md` files, build a record per file, sort by date descending. -/
def getAllPostsE (readdirF : Except Unit (List String))
    (readFile : String → Except Unit String)
    (matterF : String → Except Unit (FrontMatter × String))
    (markedF : String → String) : Except Unit (List Post) :=
  match readdirF with
  | .error e => .error e
  | .ok fileNames =>
    match mapE (postOfFile readFile matterF markedF)
        (fileNames.filter (fun fileName => jsEndsWith fileName ".md")) with
    | .error e => .error e
    | .ok posts => .ok (List.insertionSort dateGe posts)

/-- `getAllPosts`: the `try`/`catch` wrapper — any exception anywhere in the
body (directory listing, file read, front-matter parse) is caught and the
empty list returned. -/
def getAllPosts (readdirF : Except Unit (List String))
    (readFile : String → Except Unit String)
    (matterF : String → Except Unit (FrontMatter × String))
    (markedF : String → String) : List Post :=
  match getAllPostsE readdirF readFile matterF markedF with
  | .ok posts => posts
  | .error _ => []

/-- `getPostBySlug`: linear search (`Array.prototype.find`) for an exact slug
match over the output of `getAllPosts`; `undefined || null` becomes `none`. -/
def getPostBySlug (readdirF : Except Unit (List String))
    (readFile : String → Except Unit String)
    (matterF : String → Except Unit (FrontMatter × String))
    (markedF : String → String) (slug : String) : Option Post :=
  (getAllPosts readdirF readFile matterF markedF).find?
    (fun post => post.slug == slug)

/-- The `Route` union of `HomeClient.tsx`:
`'home' | 'roadmap' | 'skills' | 'log' | { post: string } | 'manifesto'`. -/
inductive Route where
  | home
  | roadmap
  | skills
  | log
  | manifesto
  | post (slug : String)
deriving DecidableEq

/-- The array literal `['home', 'roadmap', 'skills', 'log', 'manifesto']`
the hash parser checks membership in. -/
def stateNames : List String := ["home", "roadmap", "skills", "log", "manifesto"]

/-- The `parts[0] as Route` cast: a member of `stateNames` as a `Route`
value (in TypeScript the route value is the string itself). -/
def nameToRoute (s : String) : Route :=
  if s = "roadmap" then Route.roadmap
  else if s = "skills" then Route.skills
  else if s = "log" then Route.log
  else if s = "manifesto" then Route.manifesto
  else Route.home

/-- The shared fragment-parse logic of the mount effect and of
`handleHashChange`: split on `/`; if the first segment is `log` and a
second, truthy (non-empty) segment follows, a post route; else a recognized
bare state name; else no `setRoute` call (`none`). -/
def parseHash (hash : String) : Option Route :=
  let parts := jsSplit hash '/'
  let p0 := parts.headD ""
  let p1 := (parts.drop 1).headD ""
  if p0 = "log" ∧ p1 ≠ "" then some (Route.post p1)
  else if p0 ∈ stateNames then some (nameToRoute p0)
  else none

/-- Route resulting from the mount effect: the state starts as `home`, and
the effect parses a non-empty fragment, leaving the state untouched when no
branch matches. -/
def initialRoute (hash : String) : Route :=
  if hash ≠ "" then (parseHash hash).getD Route.home else Route.home

/-- Route resulting from delivering a `hashchange` event with fragment
`hash` while in state `current`: an empty fragment resets to `home`; a
parsed fragment replaces the state; otherwise no `setRoute` call is made
and the state is unchanged. -/
def handleHashChange (hash : String) (current : Route) : Route :=
  if hash = "" then Route.home
  else (parseHash hash).getD current

/-- The fragment written by the route-to-hash effect (without the leading
`#`): the bare name for string routes, `log/<slug>` for post routes. -/
def routeToHash : Route → String
  | Route.home => "home"
  | Route.roadmap => "roadmap"
  | Route.skills => "skills"
  | Route.log => "log"
  | Route.manifesto => "manifesto"
  | Route.post slug => "log/" ++ slug

/-- The `currentPost` memo: a linear slug search when the route is a post
route, `null` otherwise. -/
def currentPost (route : Route) (posts : List Post) : Option Post :=
  match route with
  | Route.post slug => posts.find? (fun p => p.slug == slug)
  | _ => none

/-- Whether the render layer emits the post-detail section: the JSX guard
`{currentPost && (...)}`. -/
def rendersPostDetail (route : Route) (posts : List Post) : Bool :=
  (currentPost route posts).isSome

/-- The `filteredPosts` memo: a date-descending copy of the post list,
filtered by the selected category facet unless the facet is `all`. -/
def filteredPosts (posts : List Post) (category : String) : List Post :=
  let sorted := List.insertionSort dateGe posts
  if category = "all" then sorted
  else sorted.filter (fun p => p.category == category)

/-- JavaScript `Array.prototype.findIndex`: index of the first match,
`-1` when there is none. -/
def jsFindIndex (p : Post → Bool) : List Post → Int
  | [] => -1
  | x :: xs =>
    if p x then 0
    else
      let r := jsFindIndex p xs
      if r = -1 then -1 else r + 1

/-- The `postNavigation` memo, as the pair `(prev, next)`: with no active
post both are `null`; otherwise the active post's index is found by slug in
the date-descending list, `prev` is the entry at the next index (when the
index is not last) and `next` the entry at the previous index (when the
index is positive). -/
def postNavigation (posts : List Post) (current : Option Post) :
    Option Post × Option Post :=
  match current with
  | none => (none, none)
  | some cur =>
    let sorted := List.insertionSort dateGe posts
    let currentIndex := jsFindIndex (fun p => p.slug == cur.slug) sorted
    ( if currentIndex < (sorted.length : Int) - 1 then
        sorted.get? (currentIndex + 1).toNat
      else none
    , if currentIndex > 0 then sorted.get? (currentIndex - 1).toNat
      else none )

/-! ### Properties of the content loader -/

/-- Claim C1: for every input set of markdown files (any directory listing,
file contents, front-matter parse and markdown renderer), the list returned
by `getAllPosts` is sorted non-increasing by the `date` field: for every
adjacent pair, `date[i] >= date[i+1]` under string comparison (`dateGe`). -/
theorem getAllPosts_sorted_by_date_desc
    (readdirF : Except Unit (List String))
    (readFile : String → Except Unit String)
    (matterF : String → Except Unit (FrontMatter × String))
    (markedF : String → String) :
    List.Pairwise dateGe (getAllPosts readdirF readFile matterF markedF) := by
  unfold getAllPosts getAllPostsE
  cases readdirF with
  | error e => exact List.Pairwise.nil
  | ok fileNames =>
    dsimp only
    cases mapE (postOfFile readFile matterF markedF)
        (fileNames.filter (fun fileName => jsEndsWith fileName ".md")) with
    | error e => exact List.Pairwise.nil
    | ok posts => exact List.sorted_insertionSort dateGe posts

/-- Claim C6: if the content directory cannot be read (the `readdirSync`
call throws), `getAllPosts` does not propagate the error: it returns the
empty sequence.  (The accompanying `console.error` log is a side effect
outside this pure model.) -/
theorem getAllPosts_dir_error_empty
    (e : Unit)
    (readFile : String → Except Unit String)
    (matterF : String → Except Unit (FrontMatter × String))
    (markedF : String → String) :
    getAllPosts (Except.error e) readFile matterF markedF = [] := rfl

/-! ### Properties of the view-state router -/

theorem jsSplitList_of_not_mem {c : Char} :
    ∀ l : List Char, c ∉ l → jsSplitList c l = [l] := by
  intro l
  induction l with
  | nil => intro _; rfl
  | cons x xs ih =>
    intro h
    have hx : ¬ x = c := fun he => h (he ▸ List.mem_cons_self x xs)
    have hxs : c ∉ xs := fun hm => h (List.mem_cons_of_mem x hm)
    simp only [jsSplitList, if_neg hx, ih hxs]

theorem jsSplitList_append_sep {c : Char} :
    ∀ l₁ l₂ : List Char, c ∉ l₁ →
      jsSplitList c (l₁ ++ c :: l₂) = l₁ :: jsSplitList c l₂ := by
  intro l₁
  induction l₁ with
  | nil => intro l₂ _; simp [jsSplitList]
  | cons x xs ih =>
    intro l₂ h
    have hx : ¬ x = c := fun he => h (he ▸ List.mem_cons_self x xs)
    have hxs : c ∉ xs := fun hm => h (List.mem_cons_of_mem x hm)
    rw [List.cons_append]
    simp only [jsSplitList, if_neg hx, List.append_eq]
    rw [ih l₂ hxs]

theorem mk_data_eq (s : String) : String.mk s.data = s := rfl

/-- A slug in the sense of the design document's glossary: a non-empty
URL-safe identifier.  URL-safety is used here only through its consequence
that the path separator `/` does not occur in the slug. -/
def IsSlug (s : String) : Prop := s ≠ "" ∧ '/' ∉ s.data

theorem jsSplit_log_slug {s : String} (hs : IsSlug s) :
    jsSplit ("log/" ++ s) '/' = ["log", s] := by
  have h1 : ("log/" ++ s).data = ['l', 'o', 'g'] ++ '/' :: s.data := by
    rw [String.data_append]
    rfl
  unfold jsSplit
  rw [h1, jsSplitList_append_sep _ _ (by decide), jsSplitList_of_not_mem _ hs.2]
  simp only [List.map_cons, List.map_nil, mk_data_eq]

theorem log_slug_fragment_ne_empty {s : String} :
    ("log/" ++ s) ≠ "" := by
  intro h
  have h2 := congrArg String.data h
  rw [String.data_append] at h2
  simp at h2

theorem parseHash_log_slug {s : String} (hs : IsSlug s) :
    parseHash ("log/" ++ s) = some (Route.post s) := by
  unfold parseHash
  rw [jsSplit_log_slug hs]
  simp [hs.1]

theorem initialRoute_of_parse {hash : String} {r : Route}
    (h1 : hash ≠ "") (h2 : parseHash hash = some r) :
    initialRoute hash = r := by
  unfold initialRoute
  rw [if_pos h1, h2]
  rfl

theorem handleHashChange_of_parse {hash : String} {r : Route} (cur : Route)
    (h1 : hash ≠ "") (h2 : parseHash hash = some r) :
    handleHashChange hash cur = r := by
  unfold handleHashChange
  rw [if_neg h1, h2]
  rfl

/-- Claim C2: round-trip between `Route` values and the URL fragment.  For
every slug `s` (a non-empty identifier without the `/` separator, per the
glossary), setting the route to `post s` writes the fragment `log/s`, and
parsing that fragment — once at initial load, or via a `hashchange` event
delivered in any current state — yields `post s` again; likewise every
parameterless state round-trips through its bare fragment. -/
theorem post_route_fragment_roundtrip (s : String) (cur : Route)
    (hs : IsSlug s) :
    routeToHash (Route.post s) = "log/" ++ s ∧
    initialRoute ("log/" ++ s) = Route.post s ∧
    handleHashChange ("log/" ++ s) cur = Route.post s ∧
    ∀ r : Route, (∀ t, r ≠ Route.post t) →
      initialRoute (routeToHash r) = r ∧
      handleHashChange (routeToHash r) cur = r := by
  refine ⟨rfl, ?_, ?_, ?_⟩
  · exact initialRoute_of_parse log_slug_fragment_ne_empty (parseHash_log_slug hs)
  · exact handleHashChange_of_parse cur log_slug_fragment_ne_empty
      (parseHash_log_slug hs)
  · intro r hr
    cases r with
    | home =>
      exact ⟨initialRoute_of_parse (by decide) (by decide),
        handleHashChange_of_parse cur (by decide) (by decide)⟩
    | roadmap =>
      exact ⟨initialRoute_of_parse (by decide) (by decide),
        handleHashChange_of_parse cur (by decide) (by decide)⟩
    | skills =>
      exact ⟨initialRoute_of_parse (by decide) (by decide),
        handleHashChange_of_parse cur (by decide) (by decide)⟩
    | log =>
      exact ⟨initialRoute_of_parse (by decide) (by decide),
        handleHashChange_of_parse cur (by decide) (by decide)⟩
    | manifesto =>
      exact ⟨initialRoute_of_parse (by decide) (by decide),
        handleHashChange_of_parse cur (by decide) (by decide)⟩
    | post t => exact absurd rfl (hr t)

/-- Witness for claim C2 at the concrete slug used by the design document's
own round-trip scenario. -/
theorem post_route_fragment_roundtrip_witness :
    IsSlug "day-1-rust-ownership-borrowing-move" ∧
    initialRoute ("log/" ++ "day-1-rust-ownership-borrowing-move") =
      Route.post "day-1-rust-ownership-borrowing-move" := by
  have hs : IsSlug "day-1-rust-ownership-borrowing-move" :=
    ⟨by decide, by decide⟩
  exact ⟨hs,
    (post_route_fragment_roundtrip "day-1-rust-ownership-borrowing-move"
      Route.home hs).2.1⟩

/-- First `/`-segment of a fragment, the `parts[0]` both parse effects
branch on. -/
def firstSegment (hash : String) : String :=
  (jsSplit hash '/').headD ""

theorem parseHash_eq_none_of_unrecognized {hash : String}
    (h : firstSegment hash ∉ stateNames) : parseHash hash = none := by
  have hlog : ¬ (firstSegment hash = "log" ∧
      ((jsSplit hash '/').drop 1).headD "" ≠ "") := by
    rintro ⟨h1, -⟩
    exact h (h1 ▸ (by decide))
  have hmem : ¬ firstSegment hash ∈ stateNames := h
  simp only [parseHash, firstSegment] at hlog hmem ⊢
  rw [if_neg hlog, if_neg hmem]

/-- Claim C3 counterexample: a `hashchange` event carrying the unrecognized
non-empty fragment `bogus`, delivered while the state is `roadmap`, leaves
the state at `roadmap` — not `home` as the claim requires; and the fragment
`roadmap/extra`, which matches neither a bare state name nor `log/<slug>`,
parses to `roadmap` — not `home` — already at initial load. -/
theorem unrecognized_fragment_counterexample :
    handleHashChange "bogus" Route.roadmap = Route.roadmap ∧
    initialRoute "roadmap/extra" = Route.roadmap ∧
    Route.roadmap ≠ Route.home := by
  exact ⟨by decide, by decide, by decide⟩

/-- Claim C3, amended: a fragment whose first `/`-segment is not one of the
five state names parses to `home` at initial load (the state simply keeps
its initial value); on a `hashchange` event the empty fragment resets to
`home`, while a non-empty unrecognized fragment makes no `setRoute` call
and leaves the current state unchanged. -/
theorem unrecognized_fragment_fallback (hash : String) (cur : Route)
    (h : firstSegment hash ∉ stateNames) :
    initialRoute hash = Route.home ∧
    handleHashChange hash cur = (if hash = "" then Route.home else cur) := by
  have hp := parseHash_eq_none_of_unrecognized h
  by_cases hh : hash = ""
  · subst hh
    exact ⟨by decide, by simp [handleHashChange]⟩
  · refine ⟨?_, ?_⟩
    · unfold initialRoute
      rw [if_pos hh, hp]
      rfl
    · unfold handleHashChange
      rw [if_neg hh, if_neg hh, hp]
      rfl

/-- Witness for the amended claim C3 at the fragment `bogus` in state
`skills`. -/
theorem unrecognized_fragment_fallback_witness :
    firstSegment "bogus" ∉ stateNames ∧
    initialRoute "bogus" = Route.home ∧
    handleHashChange "bogus" Route.skills =
      (if ("bogus" : String) = "" then Route.home else Route.skills) := by
  have h : firstSegment "bogus" ∉ stateNames := by decide
  exact ⟨h, (unrecognized_fragment_fallback "bogus" Route.skills h).1,
    (unrecognized_fragment_fallback "bogus" Route.skills h).2⟩

/-! ### Concrete posts used by scenario witnesses (the design document's
3-post date-descending example) -/

/-- Newest post of the scenario, dated `2026-02-20`, category `rust`. -/
def postA : Post :=
  mkPost ⟨some "post-a", some "A", some (FMDate.str "2026-02-20"), none,
    some "rust", none, none⟩ "body-a" "a.md" id

/-- Middle post of the scenario, dated `2026-02-10`, category `personal`. -/
def postB : Post :=
  mkPost ⟨some "post-b", some "B", some (FMDate.str "2026-02-10"), none,
    some "personal", none, none⟩ "body-b" "b.md" id

/-- Oldest post of the scenario, dated `2026-01-25`, category `rust`. -/
def postC : Post :=
  mkPost ⟨some "post-c", some "C", some (FMDate.str "2026-01-25"), none,
    some "rust", none, none⟩ "body-c" "c.md" id

/-- Claim C4 counterexample: in the 3-post date-descending list
`[postA, postB, postC]` with the middle post active, the code's `next`
pointer resolves to `postA`, the chronologically newer post at index 0 —
not to the older post `postC` at index 2 as the claim states — and the
`prev` pointer resolves to the older `postC`, not the newer `postA`. -/
theorem postNavigation_counterexample :
    (postNavigation [postA, postB, postC] (some postB)).2 = some postA ∧
    (postNavigation [postA, postB, postC] (some postB)).2 ≠ some postC ∧
    (postNavigation [postA, postB, postC] (some postB)).1 = some postC ∧
    (postNavigation [postA, postB, postC] (some postB)).1 ≠ some postA := by
  refine ⟨by decide, by decide, by decide, by decide⟩

/-- Claim C4, amended: when the active post's slug is found at index `i` of
the date-descending list, the `prev` pointer holds the entry at index
`i + 1` (the chronologically older neighbor) and is absent at the last
(oldest) index, while the `next` pointer holds the entry at index `i - 1`
(the chronologically newer neighbor) and is absent at index 0 (the newest
post); the list itself is date-descending. -/
theorem postNavigation_neighbors (posts : List Post) (cur : Post) (i : Nat)
    (h : jsFindIndex (fun p => p.slug == cur.slug)
        (List.insertionSort dateGe posts) = (i : Int)) :
    (postNavigation posts (some cur)).1 =
      (if i + 1 < (List.insertionSort dateGe posts).length then
        (List.insertionSort dateGe posts).get? (i + 1)
      else none) ∧
    (postNavigation posts (some cur)).2 =
      (if 0 < i then (List.insertionSort dateGe posts).get? (i - 1)
      else none) ∧
    List.Pairwise dateGe (List.insertionSort dateGe posts) := by
  unfold postNavigation
  dsimp only
  rw [h]
  refine ⟨?_, ?_, List.sorted_insertionSort dateGe posts⟩
  · by_cases hi : i + 1 < (List.insertionSort dateGe posts).length
    · rw [if_pos (by omega : (i : Int) <
          ((List.insertionSort dateGe posts).length : Int) - 1),
        if_pos hi, (by omega : ((i : Int) + 1).toNat = i + 1)]
    · rw [if_neg (by omega : ¬ (i : Int) <
          ((List.insertionSort dateGe posts).length : Int) - 1),
        if_neg hi]
  · by_cases hi : 0 < i
    · rw [if_pos (by omega : (i : Int) > 0), if_pos hi,
        (by omega : ((i : Int) - 1).toNat = i - 1)]
    · rw [if_neg (by omega : ¬ (i : Int) > 0), if_neg hi]

/-- Witness for the amended claim C4 at the 3-post scenario with the middle
post active: `prev` resolves to the older `postC`, `next` to the newer
`postA`. -/
theorem postNavigation_neighbors_witness :
    jsFindIndex (fun p => p.slug == postB.slug)
      (List.insertionSort dateGe [postA, postB, postC]) = ((1 : Nat) : Int) ∧
    (postNavigation [postA, postB, postC] (some postB)).1 = some postC ∧
    (postNavigation [postA, postB, postC] (some postB)).2 = some postA := by
  have h : jsFindIndex (fun p => p.slug == postB.slug)
      (List.insertionSort dateGe [postA, postB, postC]) = ((1 : Nat) : Int) := by
    decide
  refine ⟨h, ?_, ?_⟩
  · rw [(postNavigation_neighbors [postA, postB, postC] postB 1 h).1]
    decide
  · rw [(postNavigation_neighbors [postA, postB, postC] postB 1 h).2.1]
    decide

/-- Claim C5: a front-matter block omitting the optional fields yields the
documented defaults — `category` is `personal`, `tags` is the (present)
empty sequence, `readTime` is the fixed placeholder `5 min`, and `slug` is
the file name with its `.md` extension stripped. -/
theorem mkPost_defaults (fm : FrontMatter) (content fileName : String)
    (markedF : String → String)
    (hcat : fm.category = none) (htags : fm.tags = none)
    (hrt : fm.readTime = none) (hslug : fm.slug = none)
    (hmd : jsEndsWith fileName ".md" = true) :
    (mkPost fm content fileName markedF).category = "personal" ∧
    (mkPost fm content fileName markedF).tags = [] ∧
    (mkPost fm content fileName markedF).readTime = "5 min" ∧
    (mkPost fm content fileName markedF).slug = jsDropRight fileName 3 := by
  unfold mkPost stripMdSuffix jsOr
  rw [hcat, htags, hrt, hslug]
  simp [hmd]

/-- Witness for claim C5 at a file `hello.md` with an all-absent
front-matter block. -/
theorem mkPost_defaults_witness :
    (mkPost ⟨none, none, none, none, none, none, none⟩
        "body" "hello.md" id).category = "personal" ∧
    (mkPost ⟨none, none, none, none, none, none, none⟩
        "body" "hello.md" id).tags = [] ∧
    (mkPost ⟨none, none, none, none, none, none, none⟩
        "body" "hello.md" id).readTime = "5 min" ∧
    (mkPost ⟨none, none, none, none, none, none, none⟩
        "body" "hello.md" id).slug = jsDropRight "hello.md" 3 :=
  mkPost_defaults ⟨none, none, none, none, none, none, none⟩
    "body" "hello.md" id rfl rfl rfl rfl (by decide)

theorem find?_first_match (p : Post → Bool) :
    ∀ (l₁ : List Post) (x : Post) (l₂ : List Post),
      (∀ q ∈ l₁, p q = false) → p x = true →
      (l₁ ++ x :: l₂).find? p = some x := by
  intro l₁
  induction l₁ with
  | nil =>
    intro x l₂ _ hx
    rw [List.nil_append]
    exact List.find?_cons_of_pos l₂ hx
  | cons a l₁ ih =>
    intro x l₂ h hx
    have ha : ¬ p a = true := by
      rw [h a (List.mem_cons_self a l₁)]
      exact Bool.false_ne_true
    rw [List.cons_append, List.find?_cons_of_neg _ ha]
    exact ih x l₂ (fun q hq => h q (List.mem_cons_of_mem a hq)) hx

/-- Claim C7: the by-slug lookup is a linear search for an exact slug match
over the full-load output, returning the first match or an explicit absent
result; a post view for a slug matching no post yields an absent
`currentPost` and no rendered post-detail content, with no error raised
(the lookup is a total function into `Option`). -/
theorem getPostBySlug_linear_search
    (readdirF : Except Unit (List String))
    (readFile : String → Except Unit String)
    (matterF : String → Except Unit (FrontMatter × String))
    (markedF : String → String) (slug : String) :
    ((∀ p ∈ getAllPosts readdirF readFile matterF markedF, p.slug ≠ slug) →
      getPostBySlug readdirF readFile matterF markedF slug = none) ∧
    (∀ (l₁ : List Post) (p : Post) (l₂ : List Post),
      getAllPosts readdirF readFile matterF markedF = l₁ ++ p :: l₂ →
      (∀ q ∈ l₁, q.slug ≠ slug) → p.slug = slug →
      getPostBySlug readdirF readFile matterF markedF slug = some p) ∧
    (∀ posts : List Post, (∀ p ∈ posts, p.slug ≠ slug) →
      currentPost (Route.post slug) posts = none ∧
      rendersPostDetail (Route.post slug) posts = false) := by
  refine ⟨?_, ?_, ?_⟩
  · intro h
    exact List.find?_eq_none.mpr (fun p hp => by simpa using h p hp)
  · intro l₁ p l₂ heq h1 h2
    unfold getPostBySlug
    rw [heq]
    exact find?_first_match _ l₁ p l₂
      (fun q hq => by simpa using h1 q hq) (by simpa using h2)
  · intro posts h
    have hc : currentPost (Route.post slug) posts = none :=
      List.find?_eq_none.mpr (fun p hp => by simpa using h p hp)
    refine ⟨hc, ?_⟩
    unfold rendersPostDetail
    rw [hc]
    rfl

/-- Witness for claim C7: looking up `nonexistent-slug` against a loader
run that yields one post (slug `post-a`) gives `none`, and the render layer
emits no post-detail section for that slug against a non-empty list. -/
theorem getPostBySlug_linear_search_witness :
    getPostBySlug (Except.ok ["a.md"]) (fun _ => Except.ok "raw")
      (fun _ => Except.ok (⟨some "post-a", some "A",
        some (FMDate.str "2026-02-20"), none, some "rust", none, none⟩,
        "body-a"))
      id "nonexistent-slug" = none ∧
    currentPost (Route.post "nonexistent-slug") [postA] = none ∧
    rendersPostDetail (Route.post "nonexistent-slug") [postA] = false := by
  refine ⟨?_, ?_, ?_⟩
  · exact (getPostBySlug_linear_search (Except.ok ["a.md"])
      (fun _ => Except.ok "raw")
      (fun _ => Except.ok (⟨some "post-a", some "A",
        some (FMDate.str "2026-02-20"), none, some "rust", none, none⟩,
        "body-a"))
      id "nonexistent-slug").1 (by decide)
  · exact ((getPostBySlug_linear_search (Except.ok ["a.md"])
      (fun _ => Except.ok "raw")
      (fun _ => Except.ok (⟨some "post-a", some "A",
        some (FMDate.str "2026-02-20"), none, some "rust", none, none⟩,
        "body-a"))
      id "nonexistent-slug").2.2 [postA] (by decide)).1
  · exact ((getPostBySlug_linear_search (Except.ok ["a.md"])
      (fun _ => Except.ok "raw")
      (fun _ => Except.ok (⟨some "post-a", some "A",
        some (FMDate.str "2026-02-20"), none, some "rust", none, none⟩,
        "body-a"))
      id "nonexistent-slug").2.2 [postA] (by decide)).2

/-- Claim C8: for every post list and facet, the filtered log list is in
descending date order, and it contains exactly (as a multiset) the posts
whose category equals the facet when the facet is not `all`, and every post
when the facet is `all`. -/
theorem filteredPosts_spec (posts : List Post) (c : String) :
    List.Pairwise dateGe (filteredPosts posts c) ∧
    (c ≠ "all" → (filteredPosts posts c).Perm
      (posts.filter (fun p => p.category == c))) ∧
    (c = "all" → (filteredPosts posts c).Perm posts) := by
  unfold filteredPosts
  by_cases hc : c = "all"
  · rw [if_pos hc]
    exact ⟨List.sorted_insertionSort dateGe posts,
      fun hne => absurd hc hne,
      fun _ => List.perm_insertionSort dateGe posts⟩
  · rw [if_neg hc]
    exact ⟨(List.sorted_insertionSort dateGe posts).sublist
        (List.filter_sublist _),
      fun _ => (List.perm_insertionSort dateGe posts).filter _,
      fun he => absurd he hc⟩

/-- Witness for claim C8: the design document's scenario — the 3-post list
(fed in an unsorted order) filtered by the facet `rust` keeps exactly the
two `rust` posts, in descending date order. -/
theorem filteredPosts_spec_witness :
    List.Pairwise dateGe (filteredPosts [postB, postC, postA] "rust") ∧
    (filteredPosts [postB, postC, postA] "rust").Perm
      ([postB, postC, postA].filter (fun p => p.category == "rust")) ∧
    filteredPosts [postB, postC, postA] "rust" = [postA, postC] := by
  refine ⟨(filteredPosts_spec [postB, postC, postA] "rust").1,
    (filteredPosts_spec [postB, postC, postA] "rust").2.1 (by decide),
    by decide⟩

theorem mapE_ok_forall {f : String → Except Unit Post} :
    ∀ {l : List String} {ys : List Post}, mapE f l = Except.ok ys →
      ∀ x ∈ l, ∃ y, f x = Except.ok y := by
  intro l
  induction l with
  | nil =>
    intro ys _ x hx
    exact absurd hx (List.not_mem_nil x)
  | cons a l ih =>
    intro ys h x hx
    cases hfa : f a with
    | error e =>
      simp only [mapE, hfa] at h
      cases h
    | ok y =>
      simp only [mapE, hfa] at h
      cases hml : mapE f l with
      | error e =>
        simp only [hml] at h
        cases h
      | ok ys2 =>
        rcases List.mem_cons.mp hx with rfl | hxl
        · exact ⟨y, hfa⟩
        · exact ih hml x hxl

theorem mapE_mem {f : String → Except Unit Post} :
    ∀ {l : List String} {ys : List Post}, mapE f l = Except.ok ys →
      ∀ y ∈ ys, ∃ x ∈ l, f x = Except.ok y := by
  intro l
  induction l with
  | nil =>
    intro ys h y hy
    simp only [mapE] at h
    cases h
    exact absurd hy (List.not_mem_nil y)
  | cons a l ih =>
    intro ys h y hy
    cases hfa : f a with
    | error e =>
      simp only [mapE, hfa] at h
      cases h
    | ok y0 =>
      simp only [mapE, hfa] at h
      cases hml : mapE f l with
      | error e =>
        simp only [hml] at h
        cases h
      | ok ys2 =>
        simp only [hml] at h
        cases h
        rcases List.mem_cons.mp hy with rfl | hyl
        · exact ⟨a, List.mem_cons_self a l, hfa⟩
        · obtain ⟨x, hxl, hfx⟩ := ih hml y hyl
          exact ⟨x, List.mem_cons_of_mem a hxl, hfx⟩

/-- Every post in the output of `getAllPosts` is the record built by
`mkPost` from the parsed pieces of some successfully read file. -/
theorem getAllPosts_mem
    {readdirF : Except Unit (List String)}
    {readFile : String → Except Unit String}
    {matterF : String → Except Unit (FrontMatter × String)}
    {markedF : String → String} {p : Post}
    (hp : p ∈ getAllPosts readdirF readFile matterF markedF) :
    ∃ fileName contents fm content,
      readFile fileName = Except.ok contents ∧
      matterF contents = Except.ok (fm, content) ∧
      p = mkPost fm content fileName markedF := by
  unfold getAllPosts getAllPostsE at hp
  cases readdirF with
  | error e => exact absurd hp (List.not_mem_nil p)
  | ok fileNames =>
    dsimp only at hp
    cases hml : mapE (postOfFile readFile matterF markedF)
        (fileNames.filter (fun fileName => jsEndsWith fileName ".md")) with
    | error e =>
      rw [hml] at hp
      exact absurd hp (List.not_mem_nil p)
    | ok posts =>
      rw [hml] at hp
      have hpp : p ∈ posts :=
        (List.perm_insertionSort dateGe posts).mem_iff.mp hp
      obtain ⟨x, _, hfx⟩ := mapE_mem hml p hpp
      unfold postOfFile at hfx
      cases hrf : readFile x with
      | error e => rw [hrf] at hfx; cases hfx
      | ok contents =>
        rw [hrf] at hfx
        dsimp only at hfx
        cases hmf : matterF contents with
        | error e => rw [hmf] at hfx; cases hfx
        | ok pr =>
          obtain ⟨fm, content⟩ := pr
          rw [hmf] at hfx
          dsimp only at hfx
          cases hfx
          exact ⟨x, contents, fm, content, hrf, hmf, rfl⟩

/-- Claim C9 counterexample: a front-matter block whose `category` value is
`zig` — outside the closed set — passes through the loader unchecked: the
resulting Post's `category` is `zig`, not one of the three labels. -/
theorem post_category_counterexample :
    getAllPosts (Except.ok ["f.md"]) (fun _ => Except.ok "raw")
      (fun _ => Except.ok
        (⟨none, none, none, none, some "zig", none, none⟩, "body"))
      id =
      [mkPost ⟨none, none, none, none, some "zig", none, none⟩
        "body" "f.md" id] ∧
    (mkPost ⟨none, none, none, none, some "zig", none, none⟩
      "body" "f.md" id).category = "zig" ∧
    "zig" ∉ (["rust", "blockchain", "personal"] : List String) := by
  exact ⟨by decide, by decide, by decide⟩

/-- Claim C9, amended: the loader passes the front-matter `category` value
through unchecked (defaulting to `personal` when it is absent or empty), so
every produced Post has a category among the three labels provided each
file's front-matter `category` is absent, empty, or itself one of the three
labels — but not for arbitrary front-matter input. -/
theorem post_category_closed_of_wellformed
    (readdirF : Except Unit (List String))
    (readFile : String → Except Unit String)
    (matterF : String → Except Unit (FrontMatter × String))
    (markedF : String → String)
    (hwf : ∀ contents fm content,
      matterF contents = Except.ok (fm, content) →
      fm.category = none ∨ fm.category = some "" ∨
        ∃ c, fm.category = some c ∧
          c ∈ (["rust", "blockchain", "personal"] : List String)) :
    ∀ p ∈ getAllPosts readdirF readFile matterF markedF,
      p.category ∈ (["rust", "blockchain", "personal"] : List String) := by
  intro p hp
  obtain ⟨fileName, contents, fm, content, _, hmf, rfl⟩ := getAllPosts_mem hp
  show jsOr fm.category "personal" ∈ _
  rcases hwf contents fm content hmf with h | h | ⟨c, hc, hcm⟩
  · rw [h]
    decide
  · rw [h]
    decide
  · have hcne : ¬ c = "" := by
      rintro rfl
      simp at hcm
    rw [hc]
    show (if c = "" then "personal" else c) ∈ _
    rw [if_neg hcne]
    exact hcm

/-- Witness for the amended claim C9 at a single file whose front-matter
category is `rust`. -/
theorem post_category_closed_of_wellformed_witness :
    (mkPost ⟨none, none, none, none, some "rust", none, none⟩
      "body" "f.md" id).category
      ∈ (["rust", "blockchain", "personal"] : List String) :=
  post_category_closed_of_wellformed (Except.ok ["f.md"])
    (fun _ => Except.ok "raw")
    (fun _ => Except.ok
      (⟨none, none, none, none, some "rust", none, none⟩, "body"))
    id
    (fun contents fm content h => by
      cases h
      exact Or.inr (Or.inr ⟨"rust", rfl, by decide⟩))
    (mkPost ⟨none, none, none, none, some "rust", none, none⟩
      "body" "f.md" id)
    (by decide)

/-- Claim C10: no per-file failure isolation — if reading or
front-matter-parsing any single `.md` file in the listed directory throws,
`getAllPosts` returns the empty sequence: no records from the other,
well-formed files survive. -/
theorem getAllPosts_all_or_nothing
    (fileNames : List String)
    (readFile : String → Except Unit String)
    (matterF : String → Except Unit (FrontMatter × String))
    (markedF : String → String) (badFile : String)
    (hmem : badFile ∈ fileNames)
    (hmd : jsEndsWith badFile ".md" = true)
    (hbad : readFile badFile = Except.error () ∨
      ∃ contents, readFile badFile = Except.ok contents ∧
        matterF contents = Except.error ()) :
    getAllPosts (Except.ok fileNames) readFile matterF markedF = [] := by
  unfold getAllPosts getAllPostsE
  dsimp only
  cases hml : mapE (postOfFile readFile matterF markedF)
      (fileNames.filter (fun fileName => jsEndsWith fileName ".md")) with
  | error e => rfl
  | ok posts =>
    exfalso
    have hmemf : badFile ∈ fileNames.filter
        (fun fileName => jsEndsWith fileName ".md") :=
      List.mem_filter.mpr ⟨hmem, hmd⟩
    obtain ⟨y, hy⟩ := mapE_ok_forall hml badFile hmemf
    unfold postOfFile at hy
    rcases hbad with hb | ⟨contents, hc1, hc2⟩
    · rw [hb] at hy
      cases hy
    · rw [hc1] at hy
      dsimp only at hy
      rw [hc2] at hy
      cases hy

/-- Witness for claim C10: one unreadable file (`bad.md`) among a directory
that also holds a well-formed `good.md` makes the whole load come back
empty. -/
theorem getAllPosts_all_or_nothing_witness :
    getAllPosts (Except.ok ["good.md", "bad.md"])
      (fun n => if n = "bad.md" then Except.error () else Except.ok "raw")
      (fun _ => Except.ok
        (⟨none, none, none, none, none, none, none⟩, "body"))
      id = [] :=
  getAllPosts_all_or_nothing ["good.md", "bad.md"]
    (fun n => if n = "bad.md" then Except.error () else Except.ok "raw")
    (fun _ => Except.ok
      (⟨none, none, none, none, none, none, none⟩, "body"))
    id "bad.md" (by decide) (by decide) (Or.inl rfl)

end Scrapy
